import Mathlib

/-!
# Verification of the dahhan ECS core

A shallow embedding of the entity/component storage engine of the
`dahhan` repository, together with theorems settling the specification
claims about it.

Conventions of the embedding:
* Rust `Vec<T>` becomes `List α` (push appends at the end, `pop` removes
  the last element).
* `usize`/`u64` values are `Nat`; overflow is modelled explicitly where
  the source checks it (`checked_add` on the generation counter).
* A Rust panic (failed `assert!`, out-of-bounds indexing, `expect`) is
  modelled by returning `none` from the embedded operation.
-/

namespace Dahhan

/-- `Vec::pop`: removes and returns the last element of the vector. -/
def vecPop {α : Type} (l : List α) : Option (α × List α) :=
  match l.getLast? with
  | some x => some (x, l.dropLast)
  | none => none

/-- `Vec::swap_remove` (after its bounds check): overwrite slot `i` with the
last element, then drop the last slot.  Callers are responsible for the
bounds check, which the source performs separately. -/
def listSwapRemove {α : Type} (l : List α) (i : Nat) : List α :=
  match l.getLast? with
  | some x => (l.set i x).dropLast
  | none => []

/-- Number of values of `u64`; the generation counter is a `u64`. -/
def u64Size : Nat := 2 ^ 64

/-- `u64::checked_add(1)`: `none` models the arithmetic overflow case
(the source calls `.expect(..)` on it, i.e. panics). -/
def u64CheckedAdd1 (g : Nat) : Option Nat :=
  if g + 1 < u64Size then some (g + 1) else none

/-! ## `src/ecs/generational_array.rs` -/

/-- `GenerationalIndex { index: usize, generation: u64 }`. -/
structure GenerationalIndex where
  index : Nat
  generation : Nat
deriving DecidableEq, Repr

/-- `AllocatorEntry { is_live: bool, generation: u64 }`. -/
structure AllocatorEntry where
  is_live : Bool
  generation : Nat
deriving DecidableEq, Repr

/-- `GenerationalIndexAllocator { entries: Vec<AllocatorEntry>, free: Vec<usize> }`. -/
structure GenerationalIndexAllocator where
  entries : List AllocatorEntry
  free : List Nat
deriving DecidableEq, Repr

/-- `GenerationalIndexAllocator::new`. -/
def GenerationalIndexAllocator.new : GenerationalIndexAllocator := ⟨[], []⟩

/-- `GenerationalIndexAllocator::allocate`.  `none` models a panic: either
the `assert!(!id_entry.is_live)` or indexing `entries[index]` out of
bounds with a corrupt free list. -/
def GenerationalIndexAllocator.allocate (a : GenerationalIndexAllocator) :
    Option (GenerationalIndex × GenerationalIndexAllocator) :=
  match vecPop a.free with
  | some (index, rest) =>
    match a.entries[index]? with
    | some e =>
      if e.is_live then none
      else
        some (⟨index, e.generation⟩,
          ⟨a.entries.set index ⟨true, e.generation⟩, rest⟩)
    | none => none
  | none =>
    some (⟨a.entries.length, 0⟩, ⟨a.entries ++ [⟨true, 0⟩], a.free⟩)

/-- `GenerationalIndexAllocator::deallocate`.  Follows the source exactly:
out-of-range index returns `false`; a dead slot returns `false`; a live
slot is marked dead, its generation is `checked_add(1)`-incremented
(`none` models the overflow panic) and its index is pushed onto the free
list, returning `true`.  Note that the source never compares
`index.generation` with the stored generation here. -/
def GenerationalIndexAllocator.deallocate (a : GenerationalIndexAllocator)
    (index : GenerationalIndex) : Option (Bool × GenerationalIndexAllocator) :=
  match a.entries[index.index]? with
  | none => some (false, a)
  | some e =>
    if e.is_live then
      match u64CheckedAdd1 e.generation with
      | some g =>
        some (true,
          ⟨a.entries.set index.index ⟨false, g⟩, a.free ++ [index.index]⟩)
      | none => none
    else some (false, a)

/-- `GenerationalIndexAllocator::is_live`. -/
def GenerationalIndexAllocator.is_live (a : GenerationalIndexAllocator)
    (index : GenerationalIndex) : Bool :=
  match a.entries[index.index]? with
  | some e => e.is_live && e.generation == index.generation
  | none => false

/-- Whether the slot at raw index `i` is currently occupied (ignoring
generations); `false` when `i` is out of range. -/
def slotLive (a : GenerationalIndexAllocator) (i : Nat) : Bool :=
  match a.entries[i]? with
  | some e => e.is_live
  | none => false

/-- The stored generation of slot `i` (`0` when `i` is out of range). -/
def slotGen (a : GenerationalIndexAllocator) (i : Nat) : Nat :=
  match a.entries[i]? with
  | some e => e.generation
  | none => 0

/-- One successful allocator operation (an `allocate` or a `deallocate`
that does not panic). -/
inductive Step : GenerationalIndexAllocator → GenerationalIndexAllocator → Prop where
  | alloc {a a' : GenerationalIndexAllocator} (h : GenerationalIndex) :
      a.allocate = some (h, a') → Step a a'
  | dealloc {a a' : GenerationalIndexAllocator} (h : GenerationalIndex) (b : Bool) :
      a.deallocate h = some (b, a') → Step a a'

/-- Any finite sequence of successful allocator operations. -/
def Steps : GenerationalIndexAllocator → GenerationalIndexAllocator → Prop :=
  Relation.ReflTransGen Step

/-- States reachable from `GenerationalIndexAllocator::new()`. -/
def Reach (a : GenerationalIndexAllocator) : Prop :=
  Steps GenerationalIndexAllocator.new a

/-- Inversion of a successful `allocate`: either a free slot was popped and
revived at its stored generation, or a fresh slot was appended at
generation `0`. -/
theorem allocate_inv {a : GenerationalIndexAllocator} {h : GenerationalIndex}
    {a' : GenerationalIndexAllocator} (heq : a.allocate = some (h, a')) :
    (∃ e rest, vecPop a.free = some (h.index, rest) ∧
      a.entries[h.index]? = some e ∧ e.is_live = false ∧
      h.generation = e.generation ∧
      a' = ⟨a.entries.set h.index ⟨true, e.generation⟩, rest⟩) ∨
    (vecPop a.free = none ∧ h = ⟨a.entries.length, 0⟩ ∧
      a' = ⟨a.entries ++ [⟨true, 0⟩], a.free⟩) := by
  unfold GenerationalIndexAllocator.allocate at heq
  split at heq
  next index rest hv =>
    split at heq
    next e hg =>
      split at heq
      next hl => exact absurd heq (by simp)
      next hl =>
        simp only [Option.some.injEq, Prod.mk.injEq] at heq
        obtain ⟨hh, ha'⟩ := heq
        subst hh; subst ha'
        exact Or.inl ⟨e, rest, hv, hg, by simpa using hl, rfl, rfl⟩
    next hg => exact absurd heq (by simp)
  next hv =>
    simp only [Option.some.injEq, Prod.mk.injEq] at heq
    exact Or.inr ⟨hv, heq.1.symm, heq.2.symm⟩

/-- Inversion of a non-panicking `deallocate`: either the slot was dead or
out of range (no-op, `false`), or it was live and has been retired with
its generation bumped (`true`). -/
theorem deallocate_inv {a : GenerationalIndexAllocator} {idx : GenerationalIndex}
    {b : Bool} {a' : GenerationalIndexAllocator}
    (heq : a.deallocate idx = some (b, a')) :
    (b = false ∧ a' = a ∧ slotLive a idx.index = false) ∨
    (b = true ∧ ∃ e, a.entries[idx.index]? = some e ∧ e.is_live = true ∧
      e.generation + 1 < u64Size ∧
      a' = ⟨a.entries.set idx.index ⟨false, e.generation + 1⟩,
            a.free ++ [idx.index]⟩) := by
  unfold GenerationalIndexAllocator.deallocate at heq
  split at heq
  next hg =>
    simp only [Option.some.injEq, Prod.mk.injEq] at heq
    exact Or.inl ⟨heq.1.symm, heq.2.symm, by simp [slotLive, hg]⟩
  next e hg =>
    split at heq
    next hl =>
      split at heq
      next g hov =>
        simp only [Option.some.injEq, Prod.mk.injEq] at heq
        have hov' : e.generation + 1 < u64Size ∧ g = e.generation + 1 := by
          unfold u64CheckedAdd1 at hov
          by_cases hlt : e.generation + 1 < u64Size
          · simp only [hlt, ite_true, Option.some.injEq] at hov
            exact ⟨hlt, hov.symm⟩
          · simp [hlt] at hov
        obtain ⟨hlt, hgeq⟩ := hov'
        subst hgeq
        exact Or.inr ⟨heq.1.symm, e, hg, hl, hlt, heq.2.symm⟩
      next hov => exact absurd heq (by simp)
    next hl =>
      simp only [Option.some.injEq, Prod.mk.injEq] at heq
      refine Or.inl ⟨heq.1.symm, heq.2.symm, ?_⟩
      simp only [slotLive, hg]
      simpa using hl

/-- `deallocate` on a dead or out-of-range slot is a no-op returning
`false`, whatever the handle's generation. -/
theorem deallocate_dead {a : GenerationalIndexAllocator} {idx : GenerationalIndex}
    (hdead : slotLive a idx.index = false) :
    a.deallocate idx = some (false, a) := by
  unfold GenerationalIndexAllocator.deallocate
  unfold slotLive at hdead
  cases hg : a.entries[idx.index]? with
  | none => rfl
  | some e =>
    rw [hg] at hdead
    simp only [] at hdead
    simp [hdead]

/-- `deallocate` on a live slot: effectful (or a panic on generation
overflow), whatever the handle's generation. -/
theorem deallocate_live {a : GenerationalIndexAllocator} {idx : GenerationalIndex}
    {e : AllocatorEntry} (hg : a.entries[idx.index]? = some e)
    (hl : e.is_live = true) :
    a.deallocate idx =
      if e.generation + 1 < u64Size then
        some (true, ⟨a.entries.set idx.index ⟨false, e.generation + 1⟩,
          a.free ++ [idx.index]⟩)
      else none := by
  unfold GenerationalIndexAllocator.deallocate u64CheckedAdd1
  rw [hg]
  by_cases hov : e.generation + 1 < u64Size <;> simp [hl, hov]

/-- `is_live` restated through the two slot observers. -/
theorem is_live_eq (a : GenerationalIndexAllocator) (idx : GenerationalIndex) :
    a.is_live idx = (slotLive a idx.index && slotGen a idx.index == idx.generation) := by
  unfold GenerationalIndexAllocator.is_live slotLive slotGen
  cases a.entries[idx.index]? <;> simp

/-- A single successful operation never decreases any slot's stored
generation. -/
theorem step_slotGen_mono {a a' : GenerationalIndexAllocator} (hs : Step a a')
    (i : Nat) : slotGen a i ≤ slotGen a' i := by
  cases hs with
  | alloc h heq =>
    rcases allocate_inv heq with ⟨e, rest, _, hg, _, _, ha'⟩ | ⟨_, _, ha'⟩
    · subst ha'
      unfold slotGen
      simp only [List.getElem?_set]
      by_cases hi : h.index = i
      · subst hi
        have hlen : h.index < a.entries.length := by
          exact (List.getElem?_eq_some.mp hg).1
        simp [hlen, hg]
      · simp [hi]
    · subst ha'
      unfold slotGen
      simp only [List.getElem?_append]
      by_cases hi : i < a.entries.length
      · simp [hi]
      · simp only [hi, ite_false]
        cases hg : a.entries[i]? with
        | none => simp
        | some e => exact absurd (List.getElem?_eq_some.mp hg).1 hi
  | dealloc h b heq =>
    rcases deallocate_inv heq with ⟨_, ha', _⟩ | ⟨_, e, hg, _, _, ha'⟩
    · subst ha'; exact le_refl _
    · subst ha'
      unfold slotGen
      simp only [List.getElem?_set]
      by_cases hi : h.index = i
      · subst hi
        have hlen : h.index < a.entries.length := (List.getElem?_eq_some.mp hg).1
        simp [hlen, hg]
      · simp [hi]

/-- Generations are monotone along any sequence of successful operations. -/
theorem steps_slotGen_mono {a a' : GenerationalIndexAllocator} (hs : Steps a a')
    (i : Nat) : slotGen a i ≤ slotGen a' i := by
  induction hs with
  | refl => exact le_refl _
  | tail _ hstep ih => exact le_trans ih (step_slotGen_mono hstep i)

/-- An element found by indexed lookup belongs to the list. -/
theorem getElem?_some_mem {α : Type} {l : List α} {i : Nat} {x : α}
    (h : l[i]? = some x) : x ∈ l := by
  obtain ⟨hlt, he⟩ := List.getElem?_eq_some.mp h
  exact he ▸ List.getElem_mem hlt

/-- The allocator state after `new(); allocate()`: one live slot at
generation `0`. -/
def allocA1 : GenerationalIndexAllocator := ⟨[⟨true, 0⟩], []⟩

/-- ... after also deallocating handle `⟨0, 0⟩`: slot `0` dead at
generation `1`, index `0` on the free list. -/
def allocA2 : GenerationalIndexAllocator := ⟨[⟨false, 1⟩], [0]⟩

/-- ... after a further `allocate()` reusing slot `0`: the slot is live
again at generation `1`, so the old handle `⟨0, 0⟩` is stale. -/
def allocA3 : GenerationalIndexAllocator := ⟨[⟨true, 1⟩], []⟩

theorem reach_allocA3 : Reach allocA3 := by
  have s1 : Step GenerationalIndexAllocator.new allocA1 :=
    Step.alloc ⟨0, 0⟩ (by decide)
  have s2 : Step allocA1 allocA2 := Step.dealloc ⟨0, 0⟩ true (by decide)
  have s3 : Step allocA2 allocA3 := Step.alloc ⟨0, 1⟩ (by decide)
  exact Relation.ReflTransGen.tail
    (Relation.ReflTransGen.tail (Relation.ReflTransGen.single s1) s2) s3

/-- C1 (counterexample): in the reachable state `allocA3` the handle
`⟨0, 0⟩` is stale — the slot's stored generation is `1`, not `0`, and
`is_live` rejects it — yet `deallocate` is NOT a no-op returning `false`:
it deallocates the slot and returns `true`, because the source never
compares the handle's generation with the stored one. -/
theorem deallocate_stale_not_noop :
    Reach allocA3 ∧
    slotGen allocA3 0 = 1 ∧
    GenerationalIndexAllocator.is_live allocA3 ⟨0, 0⟩ = false ∧
    allocA3.deallocate ⟨0, 0⟩ = some (true, ⟨[⟨false, 2⟩], [0]⟩) :=
  ⟨reach_allocA3, by decide, by decide, by decide⟩

/-- C1 (amended): `deallocate(h)` is a no-op returning `false` exactly when
the slot at `h.index` is dead or out of range; whenever that slot is live
— regardless of whether `h`'s generation matches the stored one — the
call is effectful: it marks the slot dead, increments its generation,
pushes the index onto the free list and returns `true`.  `true` is
returned only on an effectful deallocation, and on a `false` return the
state is unchanged. -/
theorem deallocate_spec (a : GenerationalIndexAllocator) (h : GenerationalIndex) :
    (a.deallocate h = some (false, a) ↔ slotLive a h.index = false) ∧
    (∀ b a', a.deallocate h = some (b, a') →
      ((b = true ↔ slotLive a h.index = true) ∧ (b = false → a' = a))) ∧
    (∀ a', a.deallocate h = some (true, a') →
      slotLive a' h.index = false ∧
      slotGen a' h.index = slotGen a h.index + 1 ∧
      a'.free = a.free ++ [h.index] ∧
      a'.entries.length = a.entries.length) := by
  refine ⟨⟨?_, ?_⟩, ?_, ?_⟩
  · intro heq
    rcases deallocate_inv heq with ⟨_, _, hdead⟩ | ⟨hb, _⟩
    · exact hdead
    · cases hb
  · intro hdead
    exact deallocate_dead hdead
  · intro b a' heq
    rcases deallocate_inv heq with ⟨hb, ha', hdead⟩ | ⟨hb, e, hg, hl, hov, ha'⟩
    · subst hb
      exact ⟨by simp [hdead], fun _ => ha'⟩
    · subst hb
      refine ⟨by simp [slotLive, hg, hl], fun h' => by cases h'⟩
  · intro a' heq
    rcases deallocate_inv heq with ⟨hb, _, _⟩ | ⟨_, e, hg, hl, hov, ha'⟩
    · cases hb
    · subst ha'
      have hlen : h.index < a.entries.length := (List.getElem?_eq_some.mp hg).1
      refine ⟨?_, ?_, rfl, by simp⟩
      · simp [slotLive, List.getElem?_set, hlen]
      · simp [slotGen, List.getElem?_set, hlen, hg]

/-- C3: a handle returned by `allocate` is live immediately afterwards;
after a subsequent successful `deallocate` of that handle, `is_live`
returns `false` in every later reachable state, and any later `allocate`
that reuses the same slot hands out a different generation. -/
theorem allocate_dealloc_liveness
    (a a1 b b' c : GenerationalIndexAllocator) (h : GenerationalIndex)
    (hreach : Reach a)
    (halloc : a.allocate = some (h, a1))
    (hab : Steps a1 b)
    (hdealloc : b.deallocate h = some (true, b'))
    (hbc : Steps b' c) :
    a1.is_live h = true ∧
    c.is_live h = false ∧
    ∀ h' c', c.allocate = some (h', c') → h'.index = h.index →
      h'.generation ≠ h.generation := by
  have key1 : a1.entries[h.index]? = some ⟨true, h.generation⟩ := by
    rcases allocate_inv halloc with ⟨e, rest, hv, hg, hdead, hgen, ha'⟩ | ⟨hv, hh, ha'⟩
    · subst ha'
      have hlen : h.index < a.entries.length := (List.getElem?_eq_some.mp hg).1
      simp [List.getElem?_set, hlen, hgen]
    · subst ha'
      subst hh
      simp
  have hlive1 : a1.is_live h = true := by
    rw [is_live_eq]
    simp [slotLive, slotGen, key1]
  have hgen1 : slotGen a1 h.index = h.generation := by simp [slotGen, key1]
  have hgenb : h.generation ≤ slotGen b h.index :=
    hgen1 ▸ steps_slotGen_mono hab h.index
  have key2 : slotGen b' h.index = slotGen b h.index + 1 := by
    rcases deallocate_inv hdealloc with ⟨hb, _, _⟩ | ⟨_, e, hg, hl, hov, ha'⟩
    · cases hb
    · subst ha'
      have hlen : h.index < b.entries.length := (List.getElem?_eq_some.mp hg).1
      simp [slotGen, List.getElem?_set, hlen, hg]
  have hgenc : h.generation + 1 ≤ slotGen c h.index := by
    have hmono := steps_slotGen_mono hbc h.index
    omega
  have hlivec : c.is_live h = false := by
    rw [is_live_eq]
    have hne : (slotGen c h.index == h.generation) = false := by
      have : slotGen c h.index ≠ h.generation := by omega
      simp [this]
    simp [hne]
  refine ⟨hlive1, hlivec, ?_⟩
  intro h' c' halloc' hidx
  rcases allocate_inv halloc' with ⟨e, rest, hv, hg, hdead, hgen', ha'⟩ | ⟨hv, hh, ha'⟩
  · have hge : slotGen c h'.index = e.generation := by simp [slotGen, hg]
    rw [hidx] at hge
    intro hcontra
    rw [hgen'] at hcontra
    omega
  · have hex : h.index < c.entries.length := by
      by_contra hncont
      have hnone : c.entries[h.index]? = none :=
        List.getElem?_eq_none (le_of_not_lt hncont)
      have : slotGen c h.index = 0 := by simp [slotGen, hnone]
      omega
    subst hh
    simp only at hidx
    omega

theorem allocate_dealloc_liveness_witness :
    Reach GenerationalIndexAllocator.new ∧
    GenerationalIndexAllocator.new.allocate = some (⟨0, 0⟩, allocA1) ∧
    Steps allocA1 allocA1 ∧
    allocA1.deallocate ⟨0, 0⟩ = some (true, allocA2) ∧
    Steps allocA2 allocA2 ∧
    (allocA1.is_live ⟨0, 0⟩ = true ∧
     allocA2.is_live ⟨0, 0⟩ = false ∧
     ∀ h' c', allocA2.allocate = some (h', c') → h'.index = 0 →
       h'.generation ≠ 0) :=
  ⟨Relation.ReflTransGen.refl, by decide, Relation.ReflTransGen.refl, by decide,
   Relation.ReflTransGen.refl,
   allocate_dealloc_liveness GenerationalIndexAllocator.new allocA1 allocA1
     allocA2 allocA2 ⟨0, 0⟩ Relation.ReflTransGen.refl (by decide)
     Relation.ReflTransGen.refl (by decide) Relation.ReflTransGen.refl⟩

/-- C7: on a state whose generations are in `u64` range, `deallocate`
panics (generation-counter overflow) exactly when an otherwise-effectful
deallocation — live slot — finds the stored generation equal to
`u64::MAX`; every non-panicking `deallocate` or `allocate` leaves every
slot's generation no smaller than before and still within `u64` range
(no decrease, no wrap-around). -/
theorem generation_overflow_fatal (a : GenerationalIndexAllocator)
    (h : GenerationalIndex)
    (hbound : ∀ e ∈ a.entries, e.generation < u64Size) :
    (a.deallocate h = none ↔
      (slotLive a h.index = true ∧ slotGen a h.index = u64Size - 1)) ∧
    (∀ b a', a.deallocate h = some (b, a') →
      (∀ i, slotGen a i ≤ slotGen a' i) ∧
      ∀ e ∈ a'.entries, e.generation < u64Size) ∧
    (∀ h' a', a.allocate = some (h', a') →
      (∀ i, slotGen a i ≤ slotGen a' i) ∧
      ∀ e ∈ a'.entries, e.generation < u64Size) := by
  have hpos : 0 < u64Size := by
    unfold u64Size
    positivity
  refine ⟨⟨?_, ?_⟩, ?_, ?_⟩
  · intro hnone
    cases hg : a.entries[h.index]? with
    | none =>
      unfold GenerationalIndexAllocator.deallocate at hnone
      rw [hg] at hnone
      simp at hnone
    | some e =>
      have hmem : e ∈ a.entries := getElem?_some_mem hg
      have hlt : e.generation < u64Size := hbound e hmem
      by_cases hl : e.is_live = true
      · rw [deallocate_live hg hl] at hnone
        by_cases hov : e.generation + 1 < u64Size
        · simp [hov] at hnone
        · refine ⟨by simp [slotLive, hg, hl], ?_⟩
          have : slotGen a h.index = e.generation := by simp [slotGen, hg]
          omega
      · have : slotLive a h.index = false := by
          simp only [slotLive, hg]
          simpa using hl
        rw [deallocate_dead this] at hnone
        cases hnone
  · rintro ⟨hlv, hgen⟩
    cases hg : a.entries[h.index]? with
    | none => simp [slotLive, hg] at hlv
    | some e =>
      have hl : e.is_live = true := by simpa [slotLive, hg] using hlv
      have hge : e.generation = u64Size - 1 := by
        have : slotGen a h.index = e.generation := by simp [slotGen, hg]
        omega
      rw [deallocate_live hg hl]
      have : ¬ e.generation + 1 < u64Size := by omega
      simp [this]
  · intro b a' heq
    refine ⟨fun i => step_slotGen_mono (Step.dealloc h b heq) i, ?_⟩
    rcases deallocate_inv heq with ⟨_, ha', _⟩ | ⟨_, e, hg, hl, hov, ha'⟩
    · subst ha'
      exact hbound
    · subst ha'
      intro e' hmem
      rcases List.mem_or_eq_of_mem_set hmem with hold | hnew
      · exact hbound e' hold
      · subst hnew
        simpa using hov
  · intro h' a' heq
    refine ⟨fun i => step_slotGen_mono (Step.alloc h' heq) i, ?_⟩
    rcases allocate_inv heq with ⟨e, rest, hv, hg, hdead, hgen', ha'⟩ | ⟨hv, hh, ha'⟩
    · subst ha'
      intro e' hmem
      rcases List.mem_or_eq_of_mem_set hmem with hold | hnew
      · exact hbound e' hold
      · subst hnew
        simpa using hbound e (getElem?_some_mem hg)
    · subst ha'
      intro e' hmem
      rcases List.mem_append.mp hmem with hold | hnew
      · exact hbound e' hold
      · simp only [List.mem_singleton] at hnew
        subst hnew
        simpa using hpos

/-- The single-slot state whose stored generation is `u64::MAX`. -/
def allocMax : GenerationalIndexAllocator := ⟨[⟨true, u64Size - 1⟩], []⟩

theorem generation_overflow_fatal_witness :
    (∀ e ∈ allocMax.entries, e.generation < u64Size) ∧
    ((allocMax.deallocate ⟨0, 0⟩ = none ↔
      (slotLive allocMax 0 = true ∧ slotGen allocMax 0 = u64Size - 1)) ∧
    (∀ b a', allocMax.deallocate ⟨0, 0⟩ = some (b, a') →
      (∀ i, slotGen allocMax i ≤ slotGen a' i) ∧
      ∀ e ∈ a'.entries, e.generation < u64Size) ∧
    (∀ h' a', allocMax.allocate = some (h', a') →
      (∀ i, slotGen allocMax i ≤ slotGen a' i) ∧
      ∀ e ∈ a'.entries, e.generation < u64Size)) :=
  ⟨by decide, generation_overflow_fatal allocMax ⟨0, 0⟩ (by decide)⟩

/-! ## `src/ecs/storage/blob_vec.rs` -/

/-- `BlobVec` bound to item type `α`.  The source erases the element type
and stores raw bytes together with the layout of the construction-time
type; since every operation asserts that the caller's type layout equals
the stored one, a buffer used at one type is modelled by its typed
contents.  The transmuted byte vector's `len` field counts items, which
is what `BlobVec::len` returns. -/
structure BlobVec (α : Type) where
  data : List α
deriving DecidableEq, Repr

/-- `BlobVec::new::<T>`. -/
def BlobVec.new (α : Type) : BlobVec α := ⟨[]⟩

/-- `BlobVec::push`. -/
def BlobVec.push {α : Type} (b : BlobVec α) (item : α) : BlobVec α :=
  ⟨b.data ++ [item]⟩

/-- `BlobVec::get`. -/
def BlobVec.get {α : Type} (b : BlobVec α) (index : Nat) : Option α :=
  b.data[index]?

/-- `BlobVec::len`. -/
def BlobVec.len {α : Type} (b : BlobVec α) : Nat := b.data.length

/-- `BlobVec::swap_remove`, following the source's control flow: when
`len == 1` the buffer is truncated to empty with no bounds check at all;
otherwise `index >= len` panics (`none`); otherwise the last element is
swapped into `index`'s slot and the length shrinks by one. -/
def BlobVec.swap_remove {α : Type} (b : BlobVec α) (index : Nat) :
    Option (BlobVec α) :=
  let len := b.data.length
  if len = 1 then some ⟨[]⟩
  else if index ≥ len then none
  else some ⟨listSwapRemove b.data index⟩

/-- Folding `push` over a list appends it to the buffer's contents. -/
theorem BlobVec.foldl_push_data {α : Type} (vs : List α) (b : BlobVec α) :
    vs.foldl BlobVec.push b = ⟨b.data ++ vs⟩ := by
  induction vs generalizing b with
  | nil => simp
  | cons x xs ih =>
    simp only [List.foldl_cons, ih]
    simp [BlobVec.push]

/-- C6: pushing `N` values into a fresh `BlobVec` and reading indices back
yields exactly the pushed values in order; `swap_remove(0)` on the
3-element buffer `[a, b, c]` leaves `[c, b]`; `swap_remove(0)` on a
1-element buffer leaves the empty buffer. -/
theorem blob_vec_roundtrip (α : Type) (vs : List α) (i : Nat)
    (hi : i < vs.length) (x a b c : α) :
    (vs.foldl BlobVec.push (BlobVec.new α)).get i = some (vs.get ⟨i, hi⟩) ∧
    ((((BlobVec.new α).push a).push b).push c).swap_remove 0 = some ⟨[c, b]⟩ ∧
    ((BlobVec.new α).push x).swap_remove 0 = some ⟨[]⟩ := by
  refine ⟨?_, rfl, rfl⟩
  rw [BlobVec.foldl_push_data]
  simp [BlobVec.get, BlobVec.new, List.getElem?_eq_getElem hi]

theorem blob_vec_roundtrip_witness :
    2 < ([10, 20, 30] : List Nat).length ∧
    (([10, 20, 30] : List Nat).foldl BlobVec.push (BlobVec.new Nat)).get 2 =
      some (([10, 20, 30] : List Nat).get ⟨2, by decide⟩) ∧
    ((((BlobVec.new Nat).push 1).push 2).push 3).swap_remove 0 = some ⟨[3, 2]⟩ ∧
    ((BlobVec.new Nat).push 5).swap_remove 0 = some ⟨[]⟩ :=
  ⟨by decide, (blob_vec_roundtrip Nat [10, 20, 30] 2 (by decide) 5 1 2 3).1,
   (blob_vec_roundtrip Nat [10, 20, 30] 2 (by decide) 5 1 2 3).2.1,
   (blob_vec_roundtrip Nat [10, 20, 30] 2 (by decide) 5 1 2 3).2.2⟩

/-- C10: `swap_remove` performs its bounds check only when the length is
not exactly `1`: a 1-element buffer is truncated to empty and returns
normally for every index argument, while for any other length an
out-of-range index panics (`none`) and an in-range one does not. -/
theorem swap_remove_single_skips_bounds_check (α : Type) (b : BlobVec α)
    (i : Nat) :
    (b.data.length = 1 → b.swap_remove i = some ⟨[]⟩) ∧
    (b.data.length ≠ 1 → (b.swap_remove i = none ↔ b.data.length ≤ i)) := by
  constructor
  · intro h1
    simp [BlobVec.swap_remove, h1]
  · intro hne
    unfold BlobVec.swap_remove
    simp only [hne, ite_false]
    by_cases hi : b.data.length ≤ i
    · simp [ge_iff_le, hi]
    · simp [ge_iff_le, hi]

theorem swap_remove_single_skips_bounds_check_witness :
    ((⟨[5]⟩ : BlobVec Nat).swap_remove 7 = some ⟨[]⟩) ∧
    ((⟨[1, 2]⟩ : BlobVec Nat).swap_remove 2 = none) :=
  ⟨(swap_remove_single_skips_bounds_check Nat ⟨[5]⟩ 7).1 rfl,
   ((swap_remove_single_skips_bounds_check Nat ⟨[1, 2]⟩ 2).2 (by decide)).mpr
     (by decide)⟩

/-! ## `src/ecs/storage/sparse_set.rs` -/

/-- `SparseArray<I, V>`: a growable array of `Option<V>` indexed directly
by the key's `sparse_index()`.  Keys are pre-converted to `Nat`. -/
structure SparseArray (V : Type) where
  values : List (Option V)
deriving DecidableEq, Repr

/-- `SparseArray::new`. -/
def SparseArray.new (V : Type) : SparseArray V := ⟨[]⟩

/-- `SparseArray::get`. -/
def SparseArray.get {V : Type} (s : SparseArray V) (index : Nat) : Option V :=
  (s.values[index]?).bind id

/-- `SparseArray::insert`: grows the backing array with `None` up to
`index + 1` slots when needed, then overwrites slot `index`. -/
def SparseArray.insert {V : Type} (s : SparseArray V) (index : Nat)
    (value : V) : SparseArray V :=
  let values :=
    if index ≥ s.values.length then
      s.values ++ List.replicate (index + 1 - s.values.length) none
    else s.values
  ⟨values.set index (some value)⟩

/-- `SparseArray::remove`: `take`s the slot, returning its prior value
together with the updated array. -/
def SparseArray.remove {V : Type} (s : SparseArray V) (index : Nat) :
    Option V × SparseArray V :=
  match s.values[index]? with
  | some o => (o, ⟨s.values.set index none⟩)
  | none => (none, s)

/-- Inserting then reading the same index yields the inserted value. -/
theorem SparseArray.get_insert_self {V : Type} (s : SparseArray V) (i : Nat)
    (v : V) : (s.insert i v).get i = some v := by
  unfold SparseArray.insert SparseArray.get
  by_cases hge : i ≥ s.values.length
  · simp only [hge, ite_true]
    have hlen : i < (s.values ++ List.replicate (i + 1 - s.values.length) none).length := by
      simp only [List.length_append, List.length_replicate]
      omega
    rw [List.getElem?_set_self hlen]
    rfl
  · simp only [hge, ite_false]
    have hlen : i < s.values.length := lt_of_not_ge hge
    rw [List.getElem?_set_self hlen]
    rfl

/-! ## `src/ecs/entity.rs` and `src/ecs/component.rs` -/

/-- `Entity(GenerationalIndex)`: an entity is its generational handle. -/
structure Entity where
  index : Nat
  generation : Nat
deriving DecidableEq, Repr

/-- Modelled from the spec: the `SparseIndex` impl for `Entity` is not in
the source tree (`entity.rs` is mid-refactor and no longer carries it),
but §3 of the spec states the per-component sparse array is "keyed by
entity index", so an entity's sparse index is its handle's `index`
field. -/
def Entity.sparse_index (e : Entity) : Nat := e.index

/-- `Entity::new_sparse_index` as used by the repository's own tests: an
entity carrying the given index (generation `0`). -/
def Entity.new_sparse_index (value : Nat) : Entity := ⟨value, 0⟩

/-- `ComponentSparseSet`, used at component type `α`: a sparse array from
entity index to dense slot, the dense entity list, and the dense
type-erased value buffer. -/
structure ComponentSparseSet (α : Type) where
  sparse : SparseArray Nat
  entities : List Entity
  dense : BlobVec α
deriving DecidableEq, Repr

/-- `ComponentSparseSet::new::<T>`. -/
def ComponentSparseSet.new (α : Type) : ComponentSparseSet α :=
  ⟨SparseArray.new Nat, [], BlobVec.new α⟩

/-- `ComponentSparseSet::insert`. -/
def ComponentSparseSet.insert {α : Type} (c : ComponentSparseSet α)
    (entity : Entity) (value : α) : ComponentSparseSet α :=
  ⟨c.sparse.insert entity.sparse_index c.dense.len,
   c.entities ++ [entity],
   c.dense.push value⟩

/-- `ComponentSparseSet::get`. -/
def ComponentSparseSet.get {α : Type} (c : ComponentSparseSet α)
    (entity : Entity) : Option α :=
  (c.sparse.get entity.sparse_index).bind fun dense_index =>
    c.dense.get dense_index

/-- `Vec::swap_remove` (panics — `none` — when the index is out of
range). -/
def vecSwapRemove {α : Type} (l : List α) (index : Nat) : Option (List α) :=
  if index < l.length then some (listSwapRemove l index) else none

/-- `ComponentSparseSet::remove_entity`, including its panicking paths:
the dense buffer's `swap_remove`, the entity vector's `swap_remove`, and
the unconditional indexing `self.entities[dense_index]` that the source
performs after both removals. -/
def ComponentSparseSet.remove_entity {α : Type} (c : ComponentSparseSet α)
    (entity : Entity) : Option (ComponentSparseSet α) :=
  match c.sparse.remove entity.sparse_index with
  | (some dense_index, sparse') =>
    match c.dense.swap_remove dense_index with
    | none => none
    | some dense' =>
      match vecSwapRemove c.entities dense_index with
      | none => none
      | some entities' =>
        match entities'[dense_index]? with
        | none => none
        | some swapped_entity =>
          some ⟨sparse'.insert swapped_entity.sparse_index dense_index,
                entities', dense'⟩
  | (none, _) => some c

/-- The set holding only component `10` for entity `⟨1, 0⟩`. -/
def cssOne : ComponentSparseSet Nat :=
  (ComponentSparseSet.new Nat).insert ⟨1, 0⟩ 10

/-- Components `10`, `20`, `30` inserted for entities `⟨1,0⟩`, `⟨2,0⟩`,
`⟨3,0⟩` in that order. -/
def cssThree : ComponentSparseSet Nat :=
  (((ComponentSparseSet.new Nat).insert ⟨1, 0⟩ 10).insert ⟨2, 0⟩ 20).insert
    ⟨3, 0⟩ 30

/-- The state after removing `⟨1, 0⟩` from `cssThree`. -/
def cssThreeRemoved : ComponentSparseSet Nat :=
  ⟨⟨[none, none, some 1, some 0]⟩, [⟨3, 0⟩, ⟨2, 0⟩], ⟨[30, 20]⟩⟩

/-- C2: removing a non-last entity behaves as specified (the spec's
`e1, e2, e3` scenario succeeds with `entities() = {e3, e2}` and intact
surviving values), but removing an entity that occupies the *last* dense
slot — here the only entity of a 1-element set — panics with an
out-of-bounds `entities[dense_index]` access instead of leaving a
consistent structure, because the source reads `entities[dense_index]`
unconditionally after the swap-removal. -/
theorem remove_entity_last_slot_panics :
    cssThree.remove_entity ⟨1, 0⟩ = some cssThreeRemoved ∧
    cssThreeRemoved.entities = [⟨3, 0⟩, ⟨2, 0⟩] ∧
    cssThreeRemoved.get ⟨2, 0⟩ = some 20 ∧
    cssThreeRemoved.get ⟨3, 0⟩ = some 30 ∧
    cssThreeRemoved.get ⟨1, 0⟩ = none ∧
    cssOne.remove_entity ⟨1, 0⟩ = none := by
  decide

/-- C9: inserting a component for an entity that already holds one does
not overwrite in place: the sparse pointer is redirected to a freshly
appended dense slot, the entity is pushed onto the entity list a second
time, `get` returns the new value, and the old value stays orphaned in
the dense buffer at its previous slot. -/
theorem insert_duplicate_orphans_old (α : Type) (c : ComponentSparseSet α)
    (e : Entity) (v v_old : α) (d : Nat)
    (hd : c.sparse.get e.sparse_index = some d)
    (hv : c.dense.get d = some v_old) :
    (c.insert e v).get e = some v ∧
    (c.insert e v).sparse.get e.sparse_index = some c.dense.len ∧
    (c.insert e v).entities = c.entities ++ [e] ∧
    (c.insert e v).entities.count e = c.entities.count e + 1 ∧
    (c.insert e v).dense.get d = some v_old := by
  have hsparse : (c.insert e v).sparse.get e.sparse_index = some c.dense.len :=
    SparseArray.get_insert_self c.sparse e.sparse_index c.dense.len
  refine ⟨?_, hsparse, rfl, ?_, ?_⟩
  · unfold ComponentSparseSet.get
    rw [hsparse]
    simp [ComponentSparseSet.insert, BlobVec.get, BlobVec.push, BlobVec.len]
  · simp [ComponentSparseSet.insert]
  · have hlt : d < c.dense.data.length := by
      unfold BlobVec.get at hv
      exact (List.getElem?_eq_some.mp hv).1
    unfold ComponentSparseSet.insert
    simp only [BlobVec.get, BlobVec.push, List.getElem?_append, hlt, ite_true]
    exact hv

theorem insert_duplicate_orphans_old_witness :
    cssOne.sparse.get 1 = some 0 ∧
    cssOne.dense.get 0 = some (10 : Nat) ∧
    ((cssOne.insert ⟨1, 0⟩ 77).get ⟨1, 0⟩ = some 77 ∧
     (cssOne.insert ⟨1, 0⟩ 77).sparse.get 1 = some cssOne.dense.len ∧
     (cssOne.insert ⟨1, 0⟩ 77).entities = cssOne.entities ++ [⟨1, 0⟩] ∧
     (cssOne.insert ⟨1, 0⟩ 77).entities.count ⟨1, 0⟩ =
       cssOne.entities.count ⟨1, 0⟩ + 1 ∧
     (cssOne.insert ⟨1, 0⟩ 77).dense.get 0 = some 10) :=
  ⟨by decide, by decide,
   insert_duplicate_orphans_old Nat cssOne ⟨1, 0⟩ 77 10 0 (by decide) (by decide)⟩

/-! ## `src/ecs/component.rs`: `ComponentsInfo` -/

/-- `ComponentId(u32)`. -/
structure ComponentId where
  id : Nat
deriving DecidableEq, Repr

/-- `ComponentId`'s `SparseIndex` impl: `self.0 as usize`. -/
def ComponentId.sparse_index (c : ComponentId) : Nat := c.id

/-- `ComponentInfo { id: ComponentId }`. -/
structure ComponentInfo where
  id : ComponentId
deriving DecidableEq, Repr

/-- `ComponentsInfo { components: Vec<ComponentInfo>, indices: HashMap<TypeId, ComponentId> }`.
`TypeId` is modelled by an abstract key type `K` and the hash map by a
function `K → Option ComponentId`. -/
structure ComponentsInfo (K : Type) where
  components : List ComponentInfo
  indices : K → Option ComponentId

/-- `ComponentsInfo::register_component::<T>`: the fresh id is the current
registry length cast `as u32` (hence the reduction modulo `2 ^ 32`); the
info is pushed and the type's map entry overwritten. -/
def ComponentsInfo.register_component {K : Type} [DecidableEq K]
    (ci : ComponentsInfo K) (k : K) : ComponentId × ComponentsInfo K :=
  let component_id : ComponentId := ⟨ci.components.length % 2 ^ 32⟩
  (component_id,
   ⟨ci.components ++ [⟨component_id⟩],
    fun k' => if k' = k then some component_id else ci.indices k'⟩)

/-- `ComponentsInfo::get_by_type_id`: map lookup followed by direct
indexing `self.components[index.sparse_index()]`.  The indexing panic on
an out-of-range id — impossible for ids the registry handed out — is
modelled as `none`. -/
def ComponentsInfo.get_by_type_id {K : Type} (ci : ComponentsInfo K) (k : K) :
    Option ComponentInfo :=
  (ci.indices k).bind fun index => ci.components[index.sparse_index]?

/-- Registering the same type key twice in a row, as `World` does when a
caller violates the register-once precondition: the two minted ids and
the final registry. -/
def registerTwice {K : Type} [DecidableEq K] (ci : ComponentsInfo K) (k : K) :
    ComponentId × ComponentId × ComponentsInfo K :=
  let r1 := ci.register_component k
  let r2 := r1.2.register_component k
  (r1.1, r2.1, r2.2)

/-- C8: `register_component` is not idempotent: registering the same type
key twice mints a strictly larger, distinct second id, the type lookup
afterwards resolves to the second id, and the first id's info stays in
the registry, orphaned. -/
theorem register_component_not_idempotent (K : Type) [DecidableEq K]
    (ci : ComponentsInfo K) (k : K)
    (hlen : ci.components.length + 1 < 2 ^ 32) :
    (registerTwice ci k).2.1.id = (registerTwice ci k).1.id + 1 ∧
    (registerTwice ci k).1 ≠ (registerTwice ci k).2.1 ∧
    (registerTwice ci k).2.2.get_by_type_id k =
      some ⟨(registerTwice ci k).2.1⟩ ∧
    (registerTwice ci k).2.2.components[(registerTwice ci k).1.id]? =
      some ⟨(registerTwice ci k).1⟩ := by
  unfold registerTwice ComponentsInfo.register_component
    ComponentsInfo.get_by_type_id
  simp only [List.length_append, List.length_cons, List.length_nil,
    Nat.zero_add, Nat.add_zero]
  have m1 : ci.components.length % 2 ^ 32 = ci.components.length := by omega
  have m2 : (ci.components.length + 1) % 2 ^ 32 = ci.components.length + 1 := by
    omega
  refine ⟨by omega, ?_, ?_, ?_⟩
  · intro hcontra
    have hcid := congrArg ComponentId.id hcontra
    simp only at hcid
    omega
  · simp only [if_true, Option.some_bind, ComponentId.sparse_index, m1, m2]
    have hcl : (ci.components ++
        [(⟨⟨ci.components.length⟩⟩ : ComponentInfo)]).length =
        ci.components.length + 1 := by simp
    rw [← hcl, List.getElem?_concat_length]
  · simp only [ComponentId.sparse_index, m1, m2]
    rw [List.getElem?_append, if_pos (by simp)]
    exact List.getElem?_concat_length ci.components _


/-- An empty registry over `Nat`-modelled type ids. -/
def ciEmpty : ComponentsInfo Nat := ⟨[], fun _ => none⟩

theorem register_component_not_idempotent_witness :
    ciEmpty.components.length + 1 < 2 ^ 32 ∧
    ((registerTwice ciEmpty 0).2.1.id = (registerTwice ciEmpty 0).1.id + 1 ∧
     (registerTwice ciEmpty 0).1 ≠ (registerTwice ciEmpty 0).2.1 ∧
     (registerTwice ciEmpty 0).2.2.get_by_type_id 0 =
       some ⟨(registerTwice ciEmpty 0).2.1⟩ ∧
     (registerTwice ciEmpty 0).2.2.components[(registerTwice ciEmpty 0).1.id]? =
       some ⟨(registerTwice ciEmpty 0).1⟩) :=
  ⟨by decide, register_component_not_idempotent Nat ciEmpty 0 (by decide)⟩

/-! ## `src/ecs/query/mod.rs` -/

/-- The `ComponentAccessor` trait: `get_component` and `entities` against
a world `W` with output type `Out`.  Rust's static trait dispatch is
modelled by passing the implementation record explicitly. -/
structure ComponentAccessor (W : Type) (Out : Type) where
  get_component : W → Entity → Option Out
  entities : W → List Entity

/-- `impl ComponentAccessor for (A, B)`: `get_component` fails the whole
tuple when either member fails; `entities` is A's entity list filtered
by membership in B's. -/
def tuple2 {W α β : Type} (A : ComponentAccessor W α)
    (B : ComponentAccessor W β) : ComponentAccessor W (α × β) where
  get_component w entity :=
    (A.get_component w entity).bind fun a_component =>
      (B.get_component w entity).map fun b_component =>
        (a_component, b_component)
  entities w :=
    (A.entities w).filter fun e => (B.entities w).contains e

/-- `impl ComponentAccessor for (A, B, C)`. -/
def tuple3 {W α β γ : Type} (A : ComponentAccessor W α)
    (B : ComponentAccessor W β) (C : ComponentAccessor W γ) :
    ComponentAccessor W (α × β × γ) where
  get_component w entity :=
    (A.get_component w entity).bind fun a_component =>
      (B.get_component w entity).bind fun b_component =>
        (C.get_component w entity).map fun c_component =>
          (a_component, b_component, c_component)
  entities w :=
    (A.entities w).filter fun e =>
      (B.entities w).contains e && (C.entities w).contains e

/-- `Query::iter` composed with `SystemParam::get_param` for `Query<T>`:
the qualifying entity list is precomputed once by `T::entities`, then
the iterator `filter_map`s each entity through `T::get_component`,
dropping entities for which the fetch fails. -/
def queryIter {W Out : Type} (T : ComponentAccessor W Out) (w : W) :
    List (Entity × Out) :=
  (T.entities w).filterMap fun entity =>
    (T.get_component w entity).map fun out => (entity, out)

/-- The refactored `World`'s component-addressable part, for two
registered component types: one `ComponentSparseSet` per type.
Modelled from the spec for the `World` record itself (the version of
`world.rs` in the tree predates the `components_info`/`components`
fields the query layer uses); the per-type stores and all operations on
them are the source's. -/
structure World2 (α β : Type) where
  storeA : ComponentSparseSet α
  storeB : ComponentSparseSet β

/-- `impl ComponentAccessor for Read<T>`, with the
`components_info`/`components` lookup resolved to the projection of the
store registered for `T`. -/
def readAccessorOn {W α : Type} (proj : W → ComponentSparseSet α) :
    ComponentAccessor W α where
  get_component w entity := (proj w).get entity
  entities w := (proj w).entities

/-- `Read<A>` over `World2`. -/
def ReadA {α β : Type} : ComponentAccessor (World2 α β) α :=
  readAccessorOn World2.storeA

/-- `Read<B>` over `World2`. -/
def ReadB {α β : Type} : ComponentAccessor (World2 α β) β :=
  readAccessorOn World2.storeB

/-- C4: a tuple accessor's `entities` is the set-intersection of the
members' entity lists, ordered as the first member's list (a sublist of
it); its `get_component` succeeds exactly when every member's fetch
succeeds; and over a world where entity `⟨0,0⟩` holds both `A` and `B`
while `⟨1,0⟩` holds only `A`, iterating `Query<(Read<A>, Read<B>)>`
yields exactly `[(⟨0,0⟩, (va, vb))]`, never the `A`-only entity. -/
theorem tuple_accessor_intersection (W α β γ δ : Type)
    (A : ComponentAccessor W α) (B : ComponentAccessor W β)
    (C : ComponentAccessor W γ) (w : W) (va vf vb : δ) :
    (∀ e, e ∈ (tuple2 A B).entities w ↔
      e ∈ A.entities w ∧ e ∈ B.entities w) ∧
    ((tuple2 A B).entities w).Sublist (A.entities w) ∧
    (∀ e, e ∈ (tuple3 A B C).entities w ↔
      e ∈ A.entities w ∧ e ∈ B.entities w ∧ e ∈ C.entities w) ∧
    ((tuple3 A B C).entities w).Sublist (A.entities w) ∧
    (∀ e, (∃ out, (tuple2 A B).get_component w e = some out) ↔
      ((∃ oa, A.get_component w e = some oa) ∧
       (∃ ob, B.get_component w e = some ob))) ∧
    queryIter (tuple2 ReadA ReadB)
      (World2.mk
        (((ComponentSparseSet.new δ).insert ⟨0, 0⟩ va).insert ⟨1, 0⟩ vf)
        ((ComponentSparseSet.new δ).insert ⟨0, 0⟩ vb)) =
      [(⟨0, 0⟩, (va, vb))] := by
  refine ⟨?_, ?_, ?_, ?_, ?_, ?_⟩
  · intro e
    simp [tuple2, List.mem_filter, List.contains, List.elem_iff]
  · exact List.filter_sublist _
  · intro e
    simp [tuple3, List.mem_filter, List.contains, List.elem_iff]
  · exact List.filter_sublist _
  · intro e
    cases hA : A.get_component w e <;> cases hB : B.get_component w e <;>
      simp [tuple2, hA, hB]
  · rfl

/-! ## `src/ecs/events.rs` -/

/-- `EventSequence<E> { events: Vec<E>, start_event_count: usize }`. -/
structure EventSequence (E : Type) where
  events : List E
  start_event_count : Nat
deriving DecidableEq, Repr

/-- `Events<E> { events_a, events_b, event_count }`. -/
structure Events (E : Type) where
  events_a : EventSequence E
  events_b : EventSequence E
  event_count : Nat
deriving DecidableEq, Repr

/-- `Events::new`. -/
def Events.new (E : Type) : Events E := ⟨⟨[], 0⟩, ⟨[], 0⟩, 0⟩

/-- `Events::send`: appends to the "b" sequence and bumps the running
total. -/
def Events.send {E : Type} (ev : Events E) (event : E) : Events E :=
  ⟨ev.events_a,
   ⟨ev.events_b.events ++ [event], ev.events_b.start_event_count⟩,
   ev.event_count + 1⟩

/-- `Events::update`: swaps the sequences, clears the new "b" and stamps
it with the running total. -/
def Events.update {E : Type} (ev : Events E) : Events E :=
  ⟨ev.events_b, ⟨[], ev.event_count⟩, ev.event_count⟩

/-- `Events::len`. -/
def Events.len {E : Type} (ev : Events E) : Nat :=
  ev.events_b.events.length + ev.events_a.events.length

/-- `EventIterator` state: the reader's cursor, the remaining chain (the
unread suffix of "a" followed by the unread suffix of "b", oldest
first), and the unread count. -/
structure EventIterator (E : Type) where
  cursor : Nat
  chain : List E
  unread : Nat
deriving DecidableEq, Repr

/-- `EventIterator::new`: `saturating_sub` is `Nat` subtraction; the
slice `events.get(i..)` with `unwrap_or_default` is `List.drop` (both
give `[]` past the end).  The write `*cursor = event_count -
unread_count` is plain `usize` subtraction; it cannot underflow in
states whose sequence counts are consistent, and `Nat` subtraction
models it there. -/
def EventIterator.new {E : Type} (cursor : Nat) (events : Events E) :
    EventIterator E :=
  let a_index := cursor - events.events_a.start_event_count
  let b_index := cursor - events.events_b.start_event_count
  let a := events.events_a.events.drop a_index
  let b := events.events_b.events.drop b_index
  let unread_count := a.length + b.length
  ⟨events.event_count - unread_count, a ++ b, unread_count⟩

/-- `EventIterator`'s `Iterator::next`: yields the head of the chain,
advancing the cursor by one and decrementing the unread count. -/
def EventIterator.next {E : Type} (it : EventIterator E) :
    Option (E × EventIterator E) :=
  match it.chain with
  | [] => none
  | item :: rest => some (item, ⟨it.cursor + 1, rest, it.unread - 1⟩)

/-- Driving `next` to exhaustion from a given cursor and chain: the
yielded events and the final cursor. -/
def readAllAux {E : Type} (cursor : Nat) (chain : List E) : List E × Nat :=
  match chain with
  | [] => ([], cursor)
  | item :: rest =>
    let r := readAllAux (cursor + 1) rest
    (item :: r.1, r.2)

/-- Full consumption of an `EventIterator`. -/
def EventIterator.readAll {E : Type} (it : EventIterator E) : List E × Nat :=
  readAllAux it.cursor it.chain

/-- `EventReader::read` (whose cursor is the reader's `Local<usize>`
state, `0` for a fresh reader) followed by full consumption of the
returned iterator: the yielded events and the cursor left behind. -/
def Events.read {E : Type} (cursor : Nat) (events : Events E) :
    List E × Nat :=
  (EventIterator.new cursor events).readAll

/-- The consistency facts maintained by `new`/`send`/`update` (they are
exactly what `Events::update`'s `debug_assert_eq!` checks): "a" ends
where "b" starts and "b" ends at the running total. -/
def EventsWF {E : Type} (ev : Events E) : Prop :=
  ev.events_a.start_event_count + ev.events_a.events.length =
    ev.events_b.start_event_count ∧
  ev.events_b.start_event_count + ev.events_b.events.length = ev.event_count

/-- `readAllAux` yields the whole chain and advances the cursor once per
yielded event. -/
theorem readAllAux_spec {E : Type} (chain : List E) (cursor : Nat) :
    readAllAux cursor chain = (chain, cursor + chain.length) := by
  induction chain generalizing cursor with
  | nil => simp [readAllAux]
  | cons x xs ih =>
    simp only [readAllAux, ih, List.length_cons]
    refine Prod.ext rfl ?_
    simp
    omega

/-- The three `u32` events of the spec scenario, sent in order into a
fresh `Events<u32>`: `u32::MAX`, `u32::MAX / 2`, `0`. -/
def evU32 : Events Nat :=
  (((Events.new Nat).send 4294967295).send 2147483647).send 0

/-- C5: a read from cursor `c` drains exactly the unread suffixes of the
two sequences chained oldest-first; it yields the `event_count - c`
unread events and leaves the cursor at `event_count` (the count of
events consumed so far), so a read from `event_count` yields nothing;
in particular the fresh-reader scenario over `evU32` yields
`[u32::MAX, u32::MAX/2, 0]` then ends, and a second read yields
nothing. -/
theorem events_reader_cursor_spec (E : Type) (ev : Events E) (cursor : Nat)
    (hwf : EventsWF ev)
    (hstart : ev.events_a.start_event_count ≤ cursor)
    (hc : cursor ≤ ev.event_count) :
    (Events.read cursor ev).1 =
      ev.events_a.events.drop (cursor - ev.events_a.start_event_count) ++
      ev.events_b.events.drop (cursor - ev.events_b.start_event_count) ∧
    (Events.read cursor ev).1.length = ev.event_count - cursor ∧
    (Events.read cursor ev).2 = ev.event_count ∧
    (Events.read ev.event_count ev).1 = [] ∧
    Events.read 0 evU32 = ([4294967295, 2147483647, 0], 3) ∧
    Events.read 3 evU32 = ([], 3) := by
  obtain ⟨hwf1, hwf2⟩ := hwf
  have hread : ∀ c : Nat, Events.read c ev =
      (ev.events_a.events.drop (c - ev.events_a.start_event_count) ++
       ev.events_b.events.drop (c - ev.events_b.start_event_count),
       ev.event_count -
         ((ev.events_a.events.drop (c - ev.events_a.start_event_count)).length +
          (ev.events_b.events.drop (c - ev.events_b.start_event_count)).length) +
         ((ev.events_a.events.drop (c - ev.events_a.start_event_count)).length +
          (ev.events_b.events.drop (c - ev.events_b.start_event_count)).length)) := by
    intro c
    unfold Events.read EventIterator.readAll EventIterator.new
    rw [readAllAux_spec]
    simp [List.length_append]
  refine ⟨by rw [hread], ?_, ?_, ?_, by decide, by decide⟩
  · rw [hread]
    simp only [List.length_append, List.length_drop]
    omega
  · rw [hread]
    simp only [List.length_drop]
    omega
  · rw [hread]
    have ha : ev.events_a.events.length ≤
        ev.event_count - ev.events_a.start_event_count := by omega
    have hb : ev.events_b.events.length ≤
        ev.event_count - ev.events_b.start_event_count := by omega
    simp [List.drop_eq_nil_of_le ha, List.drop_eq_nil_of_le hb]

theorem events_reader_cursor_spec_witness :
    EventsWF evU32 ∧
    evU32.events_a.start_event_count ≤ 0 ∧
    0 ≤ evU32.event_count ∧
    ((Events.read 0 evU32).1 =
      evU32.events_a.events.drop (0 - evU32.events_a.start_event_count) ++
      evU32.events_b.events.drop (0 - evU32.events_b.start_event_count) ∧
    (Events.read 0 evU32).1.length = evU32.event_count - 0 ∧
    (Events.read 0 evU32).2 = evU32.event_count ∧
    (Events.read evU32.event_count evU32).1 = [] ∧
    Events.read 0 evU32 = ([4294967295, 2147483647, 0], 3) ∧
    Events.read 3 evU32 = ([], 3)) :=
  ⟨⟨rfl, rfl⟩, Nat.le_refl 0, Nat.zero_le _,
   events_reader_cursor_spec Nat evU32 0 ⟨rfl, rfl⟩ (Nat.le_refl 0)
     (Nat.zero_le _)⟩

end Dahhan
